import Mathlib

/-!
Shallow embedding of translate_mods.py (Procatice/json-translator).

Strings are modelled by Lean `String` (a wrapper around `List Char`), the
translation client by a function `String → Except String String` (the
`Except.error` case models a raised exception carrying its message), and the
shelve-backed translation-memory cache by an association list in which `put`
prepends and `get` takes the first binding, matching overwrite semantics.
Each definition carries a comment naming the source construct it embeds.
-/

namespace TranslateMods

/-- Whitespace test used by the embedding of Python `str.strip()`.
Covers the ASCII whitespace characters (space, tab, newline, carriage
return, vertical tab, form feed); Python additionally strips other Unicode
whitespace, which no claim depends on. -/
def isPySpace (c : Char) : Bool :=
  c = ' ' || c = '\t' || c = '\n' || c = '\r' || c = '\x0b' || c = '\x0c'

/-- Embedding of Python `str.strip()` on the character list: drop whitespace
from the front, then from the back. -/
def stripL (l : List Char) : List Char :=
  ((l.dropWhile isPySpace).reverse.dropWhile isPySpace).reverse

/-- Python `s.strip()` as used at line 150 of translate_mods.py. -/
def pyStrip (s : String) : String :=
  ⟨stripL s.data⟩

/-- The leading whitespace of a string: the part removed from the front by
`strip`. -/
def leadWS (s : String) : String :=
  ⟨s.data.takeWhile isPySpace⟩

/-- The trailing whitespace of a string: the part removed from the back by
`strip`. -/
def trailWS (s : String) : String :=
  ⟨((s.data.dropWhile isPySpace).reverse.takeWhile isPySpace).reverse⟩

/-- Worker for the embedding of Python `str.replace` (replace all
non-overlapping occurrences, scanning left to right).  The counter argument
is the number of characters still to consume silently because they belong to
a match whose replacement has already been emitted. -/
def lrAux (pat rep : List Char) : List Char → Nat → List Char
  | [], _ => []
  | _ :: rest, n + 1 => lrAux pat rep rest n
  | c :: rest, 0 =>
    if pat ≠ [] ∧ pat.isPrefixOf (c :: rest) then
      rep ++ lrAux pat rep rest (pat.length - 1)
    else
      c :: lrAux pat rep rest 0

/-- Embedding of Python `s.replace(old, new)` for a non-empty `old`
(translate_text only calls it with the non-empty stripped core as `old`). -/
def listReplace (pat rep l : List Char) : List Char :=
  lrAux pat rep l 0

/-- Python `s.replace(old, new)` on strings, as used at lines 158 and 164 of
translate_mods.py. -/
def pyReplace (s pat rep : String) : String :=
  ⟨listReplace pat.data rep.data s.data⟩

/-- The command-line options translate_text consults: `args.skip_regex`.
`none` models the default `--skip-regex` of `None`; `some p` models a
configured pattern, abstracted to the predicate `p` that `re.search`
computes on the stripped candidate. -/
structure Args where
  skip_regex : Option (String → Bool)

/-- Embedding of `args.skip_regex and re.search(args.skip_regex, s_stripped)`
at line 154: false when no pattern is configured, otherwise the result of
searching the pattern in the given string. -/
def skipMatch (args : Args) (s : String) : Bool :=
  match args.skip_regex with
  | none => false
  | some p => p s

/-- The shelve-backed translation-memory store, modelled as an association
list; the newest binding for a key shadows older ones. -/
abbrev Cache := List (String × String)

/-- Embedding of `TMCache.get` (line 47): `self.db.get(src)`, `none` when the
key is absent. -/
def cacheGet (c : Cache) (k : String) : Option String :=
  c.lookup k

/-- Embedding of `TMCache.put` (line 50): `self.db[src] = tgt`, overwriting
any previous binding. -/
def cachePut (c : Cache) (k v : String) : Cache :=
  (k, v) :: c

/-- Result of one `translate_text` call: the returned string, the cache
state afterwards, and how many times the translation function was invoked
(0 or 1), which makes 'the Translation Client is never called' expressible. -/
structure TTResult where
  result : String
  cache : Cache
  calls : Nat
deriving DecidableEq

/-- The `try` block of translate_text (lines 160 to 167): invoke the
translation function on the stripped core; on success store the translation
under the stripped key and splice it into the original whitespace; on an
exception return the original string unchanged (fail safe). -/
def doCall (s ss : String) (tf : String → Except String String) (cache : Cache) : TTResult :=
  match tf ss with
  | Except.ok t => ⟨pyReplace s ss t, cachePut cache ss t, 1⟩
  | Except.error _ => ⟨s, cache, 1⟩

/-- Embedding of `translate_text` (lines 149 to 167 of translate_mods.py):
strip the candidate; return it unchanged when the core is empty or matches
the skip pattern; on a truthy cache hit splice the cached translation;
otherwise call the translation function via `doCall`.  Note the hit test
`if cached:` is a truthiness test, so a cached empty string falls through to
the call branch. -/
def translate_text (s : String) (tf : String → Except String String)
    (cache : Cache) (args : Args) : TTResult :=
  let ss := pyStrip s
  if ss = "" then ⟨s, cache, 0⟩
  else if skipMatch args ss then ⟨s, cache, 0⟩
  else
    match cacheGet cache ss with
    | some cached => if cached = "" then doCall s ss tf cache
                     else ⟨pyReplace s ss cached, cache, 0⟩
    | none => doCall s ss tf cache

/-- Embedding of `translate_func_factory` (lines 216 to 222 of
translate_mods.py): the returned closure forwards the text together with the
captured source language, target language and API key to the provider call
`call_deepl`, which is the black-box `client` argument here.  The rate-limit
sleep is real time and has no observable effect on any value, so it is not
modelled. -/
def translate_func_factory
    (client : String → String → String → String → Except String String)
    (src tgt api_key : String) : String → Except String String :=
  fun text => client text src tgt api_key

/-- The tree shape shared by parsed JSON and YAML documents: mappings with
string keys, sequences, and scalar leaves (string, number, boolean, null). -/
inductive JVal where
  | str : String → JVal
  | num : Int → JVal
  | bool : Bool → JVal
  | null : JVal
  | arr : List JVal → JVal
  | obj : List (String × JVal) → JVal

mutual

/-- Embedding of the nested `walk` function that appears identically in
`translate_json` (lines 62 to 69) and `translate_yaml` (lines 79 to 86):
dict values are walked in iteration order with keys kept as they are, list
elements are walked in order, string leaves go through `translate_text`, and
every other value is returned as it is.  The cache is threaded explicitly,
mirroring the in-place mutation of the shared shelve store. -/
def walk (tf : String → Except String String) (args : Args) :
    JVal → Cache → JVal × Cache
  | JVal.str s, c =>
    let r := translate_text s tf c args
    (JVal.str r.result, r.cache)
  | JVal.num n, c => (JVal.num n, c)
  | JVal.bool b, c => (JVal.bool b, c)
  | JVal.null, c => (JVal.null, c)
  | JVal.arr xs, c =>
    let r := walkList tf args xs c
    (JVal.arr r.1, r.2)
  | JVal.obj kvs, c =>
    let r := walkObj tf args kvs c
    (JVal.obj r.1, r.2)

/-- The list comprehension `[walk(x) for x in obj]` of the source `walk`,
threading the cache left to right. -/
def walkList (tf : String → Except String String) (args : Args) :
    List JVal → Cache → List JVal × Cache
  | [], c => ([], c)
  | x :: xs, c =>
    let r := walk tf args x c
    let rs := walkList tf args xs r.2
    (r.1 :: rs.1, rs.2)

/-- The dict comprehension of the source `walk`: values are walked in
iteration order, keys pass through untouched. -/
def walkObj (tf : String → Except String String) (args : Args) :
    List (String × JVal) → Cache → List (String × JVal) × Cache
  | [], c => ([], c)
  | kv :: kvs, c =>
    let r := walk tf args kv.2 c
    let rs := walkObj tf args kvs r.2
    ((kv.1, r.1) :: rs.1, rs.2)

end

mutual

/-- Erases the content of every string leaf, keeping everything else: two
trees agree under `mask` exactly when they have the same shape, the same
mapping keys in the same order, and the same non-string scalars in the same
positions. -/
def mask : JVal → JVal
  | JVal.str _ => JVal.str ""
  | JVal.num n => JVal.num n
  | JVal.bool b => JVal.bool b
  | JVal.null => JVal.null
  | JVal.arr xs => JVal.arr (maskList xs)
  | JVal.obj kvs => JVal.obj (maskObj kvs)

/-- Pointwise `mask` over a sequence. -/
def maskList : List JVal → List JVal
  | [] => []
  | x :: xs => mask x :: maskList xs

/-- Pointwise `mask` over mapping entries, keys untouched. -/
def maskObj : List (String × JVal) → List (String × JVal)
  | [] => []
  | kv :: kvs => (kv.1, mask kv.2) :: maskObj kvs

end

mutual

/-- All mapping keys of a tree, in depth-first document order. -/
def deepKeys : JVal → List String
  | JVal.str _ => []
  | JVal.num _ => []
  | JVal.bool _ => []
  | JVal.null => []
  | JVal.arr xs => deepKeysList xs
  | JVal.obj kvs => deepKeysObj kvs

/-- Keys collected across a sequence. -/
def deepKeysList : List JVal → List String
  | [] => []
  | x :: xs => deepKeys x ++ deepKeysList xs

/-- Keys of a mapping followed by the keys inside its values. -/
def deepKeysObj : List (String × JVal) → List String
  | [] => []
  | kv :: kvs => kv.1 :: (deepKeys kv.2 ++ deepKeysObj kvs)

end

/-- Insertion step of sorting mapping entries by key (code-point order on
strings, as Python compares the tuples produced by dict.items). -/
def insertByKey (x : String × JVal) : List (String × JVal) → List (String × JVal)
  | [] => [x]
  | y :: ys => if x.1 < y.1 then x :: y :: ys else y :: insertByKey x ys

/-- Insertion sort of mapping entries by key. -/
def sortByKey : List (String × JVal) → List (String × JVal)
  | [] => []
  | x :: xs => insertByKey x (sortByKey xs)

mutual

/-- Modelled from the behaviour of `yaml.safe_dump` as called at line 89 of
translate_mods.py, without `sort_keys=False`: PyYAML represents every
mapping with its entries sorted by key before emitting, recursively, while
sequences keep their order.  The function returns the tree whose textual
serialization `safe_dump` produces. -/
def yamlDumpTree : JVal → JVal
  | JVal.obj kvs => JVal.obj (sortByKey (yamlDumpObj kvs))
  | JVal.arr xs => JVal.arr (yamlDumpList xs)
  | JVal.str s => JVal.str s
  | JVal.num n => JVal.num n
  | JVal.bool b => JVal.bool b
  | JVal.null => JVal.null

/-- Sequence elements keep their order under `safe_dump`. -/
def yamlDumpList : List JVal → List JVal
  | [] => []
  | x :: xs => yamlDumpTree x :: yamlDumpList xs

/-- Mapping values are dumped recursively before the entry list is sorted. -/
def yamlDumpObj : List (String × JVal) → List (String × JVal)
  | [] => []
  | kv :: kvs => (kv.1, yamlDumpTree kv.2) :: yamlDumpObj kvs

end

/-- The top-level mapping keys of a tree, in order; empty for non-mappings. -/
def objKeys : JVal → List String
  | JVal.obj kvs => kvs.map Prod.fst
  | _ => []

/-- One hexadecimal digit, lower case. -/
def hexDigit (n : Nat) : Char :=
  if n < 10 then Char.ofNat (48 + n) else Char.ofNat (87 + n)

/-- Four-digit hexadecimal rendering used by JSON `\u` escapes. -/
def hex4 (n : Nat) : List Char :=
  [hexDigit (n / 4096 % 16), hexDigit (n / 256 % 16), hexDigit (n / 16 % 16),
   hexDigit (n % 16)]

/-- Modelled from the behaviour of `json.dump(..., ensure_ascii=False)` as
called at line 73 of translate_mods.py: inside a string literal the encoder
escapes only the backslash, the double quote and control characters below
U+0020; every other character, in particular every non-ASCII character, is
emitted literally. -/
def jsonEscapeChar (c : Char) : List Char :=
  if c = '\\' then ['\\', '\\']
  else if c = '\"' then ['\\', '\"']
  else if c = '\x08' then ['\\', 'b']
  else if c = '\x0c' then ['\\', 'f']
  else if c = '\n' then ['\\', 'n']
  else if c = '\r' then ['\\', 'r']
  else if c = '\t' then ['\\', 't']
  else if c.toNat < 32 then '\\' :: 'u' :: hex4 c.toNat
  else [c]

/-- Embedding of `line.strip().startswith('#')` at line 96 of
translate_mods.py: the comment test applied to a properties line. -/
def pyLineIsComment (line : String) : Bool :=
  match stripL line.data with
  | [] => false
  | c :: _ => c = '#'

/-- Embedding of Python `rstrip(chr(10))`: remove every trailing newline
character. -/
def rstripNL (l : List Char) : List Char :=
  (l.reverse.dropWhile (· == '\n')).reverse

/-- Embedding of the line loop of `translate_properties` (lines 91 to 104 of
translate_mods.py) on the list of input lines (each as produced by Python
file iteration, so a line normally ends with a newline): a line whose
stripped form starts with a hash, or which contains no equals sign, is kept
verbatim; otherwise the part after the first equals sign, with trailing
newlines removed, goes through `translate_text` and the output line is
rebuilt as key, equals sign, translation, newline. -/
def translate_properties_lines (tf : String → Except String String)
    (args : Args) : List String → Cache → List String × Cache
  | [], c => ([], c)
  | line :: rest, c =>
    if pyLineIsComment line || !(line.data.contains '=') then
      let r := translate_properties_lines tf args rest c
      (line :: r.1, r.2)
    else
      let key : List Char := line.data.takeWhile (· != '=')
      let val : List Char := (line.data.dropWhile (· != '=')).tail
      let tr := translate_text ⟨rstripNL val⟩ tf c args
      let r := translate_properties_lines tf args rest tr.cache
      ((⟨key⟩ ++ "=" ++ tr.result ++ "\n") :: r.1, r.2)

/-- Embedding of the line loop of `translate_txt` (lines 106 to 118 of
translate_mods.py): a line that is blank after removing its newline and
stripping is kept verbatim; otherwise the newline-stripped line goes through
`translate_text` and a newline is appended to the result. -/
def translate_txt_lines (tf : String → Except String String)
    (args : Args) : List String → Cache → List String × Cache
  | [], c => ([], c)
  | line :: rest, c =>
    let s : String := ⟨rstripNL line.data⟩
    if pyStrip s = "" then
      let r := translate_txt_lines tf args rest c
      (line :: r.1, r.2)
    else
      let tr := translate_text s tf c args
      let r := translate_txt_lines tf args rest tr.cache
      ((tr.result ++ "\n") :: r.1, r.2)

/-- One catalog entry of a .po file: its source id and its translation. -/
structure PoEntry where
  msgid : String
  msgstr : String
deriving DecidableEq

/-- Result of processing a .po file: the entries afterwards, the cache, and
the `changed` flag that decides whether `po.save` rewrites the file. -/
structure PoResult where
  entries : List PoEntry
  cache : Cache
  changed : Bool
deriving DecidableEq

/-- Embedding of the entry loop of `translate_po` (lines 120 to 131 of
translate_mods.py): entries with a blank id are skipped; entries whose
current translation strips to empty get `translate_text` of their id as new
translation and set the `changed` flag; all other entries are untouched.
The file is rewritten (po.save) exactly when `changed` holds. -/
def translate_po_entries (tf : String → Except String String)
    (args : Args) : List PoEntry → Cache → PoResult
  | [], c => ⟨[], c, false⟩
  | e :: es, c =>
    if pyStrip e.msgid = "" then
      let r := translate_po_entries tf args es c
      ⟨e :: r.entries, r.cache, r.changed⟩
    else if pyStrip e.msgstr = "" then
      let tr := translate_text e.msgid tf c args
      let r := translate_po_entries tf args es tr.cache
      ⟨⟨e.msgid, tr.result⟩ :: r.entries, r.cache, true⟩
    else
      let r := translate_po_entries tf args es c
      ⟨e :: r.entries, r.cache, r.changed⟩

/-- A cache every entry of which maps a key to itself; the states reachable
when the translation client is the identity function. -/
def IdCache (c : Cache) : Prop :=
  ∀ kv ∈ c, kv.2 = kv.1

example : pyStrip "  Hello World  " = "Hello World" := by decide
example : pyReplace "  Hello World  " "Hello World" "Bonjour" = "  Bonjour  " := by decide
example :
    (translate_text "  Hello World  " (fun _ => Except.ok "Bonjour") [] ⟨none⟩).result
      = "  Bonjour  " := by decide

/-- After a full match has been emitted, the remaining characters of the
matched occurrence are consumed silently. -/
theorem lrAux_consume (pat rep : List Char) :
    (u t : List Char) → lrAux pat rep (u ++ t) u.length = lrAux pat rep t 0
  | [], _ => rfl
  | a :: u, t => by
    show lrAux pat rep (a :: (u ++ t)) (u.length + 1) = lrAux pat rep t 0
    rw [lrAux]
    exact lrAux_consume pat rep u t

/-- Scanning a character that cannot start a match emits it unchanged. -/
theorem listReplace_cons_ne (pat rep : List Char) (c : Char) (rest : List Char)
    (h : pat.head? ≠ some c) :
    listReplace pat rep (c :: rest) = c :: listReplace pat rep rest := by
  cases pat with
  | nil =>
    show lrAux [] rep (c :: rest) 0 = c :: lrAux [] rep rest 0
    rw [lrAux, if_neg]
    simp
  | cons p pt =>
    have hpc : (p == c) = false := by
      cases hq : p == c
      · rfl
      · exfalso
        apply h
        have hpec : p = c := eq_of_beq hq
        rw [List.head?, hpec]
    show lrAux (p :: pt) rep (c :: rest) 0 = c :: lrAux (p :: pt) rep rest 0
    rw [lrAux, if_neg]
    intro hcon
    have h2 := hcon.2
    rw [List.isPrefixOf, hpc] at h2
    simp at h2

/-- A match at the current position emits the replacement and skips past the
matched occurrence. -/
theorem listReplace_head (pat rep t : List Char) (hne : pat ≠ []) :
    listReplace pat rep (pat ++ t) = rep ++ listReplace pat rep t := by
  cases pat with
  | nil => exact absurd rfl hne
  | cons p pt =>
    show lrAux (p :: pt) rep (p :: (pt ++ t)) 0 = rep ++ lrAux (p :: pt) rep t 0
    rw [lrAux, if_pos]
    · have hlen : (p :: pt).length - 1 = pt.length := by simp
      rw [hlen, lrAux_consume (p :: pt) rep pt t]
    · exact ⟨List.cons_ne_nil p pt,
        List.isPrefixOf_iff_prefix.mpr ⟨t, by simp⟩⟩

/-- Replacement scans over a run of whitespace without matching when the
pattern starts with a non-whitespace character. -/
theorem listReplace_ws (p0 : Char) (pt rep : List Char) (hp0 : isPySpace p0 = false) :
    (ws : List Char) → ∀ t, (∀ c ∈ ws, isPySpace c = true) →
      listReplace (p0 :: pt) rep (ws ++ t) = ws ++ listReplace (p0 :: pt) rep t
  | [], t, _ => by simp
  | w :: ws, t, hws => by
    have hw : isPySpace w = true := hws w (by simp)
    have hne : (p0 :: pt).head? ≠ some w := by
      simp only [List.head?]
      intro hcon
      rw [Option.some.injEq] at hcon
      rw [hcon, hw] at hp0
      cases hp0
    show listReplace (p0 :: pt) rep (w :: (ws ++ t)) = w :: ws ++ listReplace (p0 :: pt) rep t
    rw [listReplace_cons_ne _ _ _ _ hne,
        listReplace_ws p0 pt rep hp0 ws t (fun c hc => hws c (by simp [hc]))]
    rfl

/-- Replacing a pattern by itself is the identity. -/
theorem listReplace_self (pat : List Char) :
    (l : List Char) → listReplace pat pat l = l
  | [] => by cases pat <;> rfl
  | c :: rest => by
    by_cases hp : pat ≠ [] ∧ pat.isPrefixOf (c :: rest)
    · obtain ⟨hne, hpre⟩ := hp
      obtain ⟨t, ht⟩ := List.isPrefixOf_iff_prefix.mp hpre
      have hlt : t.length < (c :: rest).length := by
        have hlen := congrArg List.length ht
        rw [List.length_append] at hlen
        simp only [List.length_cons] at hlen ⊢
        cases pat with
        | nil => exact absurd rfl hne
        | cons a as =>
          simp only [List.length_cons] at hlen
          omega
      rw [← ht, listReplace_head pat pat t hne, listReplace_self pat t]
    · show lrAux pat pat (c :: rest) 0 = c :: rest
      rw [lrAux, if_neg hp]
      have hr := listReplace_self pat rest
      rw [listReplace] at hr
      rw [hr]
termination_by l => l.length
decreasing_by
· exact hlt
· simp

/-- Replacing a non-empty pattern by itself is the identity, on strings. -/
theorem pyReplace_self (s p : String) : pyReplace s p p = s := by
  show String.mk (listReplace p.data p.data s.data) = s
  rw [listReplace_self]

/-- The stripped core followed by the trailing whitespace is what is left
after removing the leading whitespace. -/
theorem stripL_append_trail (l : List Char) :
    stripL l ++ ((l.dropWhile isPySpace).reverse.takeWhile isPySpace).reverse
      = l.dropWhile isPySpace := by
  unfold stripL
  rw [← List.reverse_append, List.takeWhile_append_dropWhile, List.reverse_reverse]

/-- Every string splits as leading whitespace, stripped core, trailing
whitespace. -/
theorem strip_decomp (l : List Char) :
    l = l.takeWhile isPySpace ++ stripL l
          ++ ((l.dropWhile isPySpace).reverse.takeWhile isPySpace).reverse := by
  rw [List.append_assoc, stripL_append_trail, List.takeWhile_append_dropWhile]

/-- The head of what dropWhile returns does not satisfy the predicate. -/
theorem dropWhile_head_false (p : Char → Bool) :
    (l : List Char) → ∀ c rest, l.dropWhile p = c :: rest → p c = false
  | [] => by intro c rest h; cases h
  | a :: l => by
    intro c rest h
    rw [List.dropWhile] at h
    cases hpa : p a
    · rw [hpa] at h
      injection h with h1 _
      rw [← h1]
      exact hpa
    · rw [hpa] at h
      exact dropWhile_head_false p l c rest h

/-- The stripped core starts with a non-whitespace character. -/
theorem stripL_head_not_space (l : List Char) (c : Char) (rest : List Char)
    (h : stripL l = c :: rest) : isPySpace c = false := by
  have hd := stripL_append_trail l
  rw [h] at hd
  exact dropWhile_head_false isPySpace l c _ hd.symm

/-- Elements of the trailing whitespace are whitespace. -/
theorem trail_space (l : List Char) :
    ∀ c ∈ ((l.dropWhile isPySpace).reverse.takeWhile isPySpace).reverse,
      isPySpace c = true := by
  intro c hc
  rw [List.mem_reverse] at hc
  exact List.mem_takeWhile_imp hc

/-- Splice at the list level: replacing the core inside whitespace padding
replaces exactly the core, because a core starting with a non-whitespace
character can match at no other position. -/
theorem listReplace_splice (lead trail rep : List Char) (c0 : Char) (ct : List Char)
    (hp0 : isPySpace c0 = false)
    (hlead : ∀ c ∈ lead, isPySpace c = true)
    (htrail : ∀ c ∈ trail, isPySpace c = true) :
    listReplace (c0 :: ct) rep (lead ++ (c0 :: ct) ++ trail) = lead ++ rep ++ trail := by
  rw [List.append_assoc]
  rw [listReplace_ws c0 ct rep hp0 lead _ hlead]
  rw [listReplace_head _ _ _ (List.cons_ne_nil c0 ct)]
  have h3 := listReplace_ws c0 ct rep hp0 trail [] htrail
  rw [List.append_nil] at h3
  have h4 : listReplace (c0 :: ct) rep ([] : List Char) = [] := rfl
  rw [h4, List.append_nil] at h3
  rw [h3, List.append_assoc]

/-- Replacing the stripped core of a string rebuilds the string from its
leading whitespace, the replacement, and its trailing whitespace. -/
theorem listReplace_strip (l rep : List Char) (h : stripL l ≠ []) :
    listReplace (stripL l) rep l
      = l.takeWhile isPySpace ++ rep
          ++ ((l.dropWhile isPySpace).reverse.takeWhile isPySpace).reverse := by
  obtain ⟨c0, ct, hct⟩ : ∃ c0 ct, stripL l = c0 :: ct := by
    cases hx : stripL l with
    | nil => exact absurd hx h
    | cons a as => exact ⟨a, as, rfl⟩
  have hp0 : isPySpace c0 = false := stripL_head_not_space l c0 ct hct
  have hsplice := listReplace_splice (l.takeWhile isPySpace)
    ((l.dropWhile isPySpace).reverse.takeWhile isPySpace).reverse rep c0 ct hp0
    (fun c hc => List.mem_takeWhile_imp hc) (trail_space l)
  rw [← hct] at hsplice
  rw [← strip_decomp l] at hsplice
  exact hsplice

/-- The splice identity of translate_text: replacing the stripped core of a
string by any text keeps the original leading and trailing whitespace and
substitutes the core, because the core can occur at no other position. -/
theorem replace_strip_splice (s t : String) (h : pyStrip s ≠ "") :
    pyReplace s (pyStrip s) t = leadWS s ++ t ++ trailWS s := by
  have hcore : stripL s.data ≠ [] := by
    intro hc
    apply h
    show String.mk (stripL s.data) = ""
    rw [hc]
  show String.mk (listReplace (stripL s.data) t.data s.data)
      = leadWS s ++ t ++ trailWS s
  rw [listReplace_strip s.data t.data hcore]
  rfl

/-- When the stripped core is non-empty, no skip pattern matches, and there
is no truthy cache hit, translate_text runs its try block. -/
theorem translate_text_callBranch (s : String) (tf : String → Except String String)
    (cache : Cache) (args : Args)
    (hss : pyStrip s ≠ "") (hsk : skipMatch args (pyStrip s) = false)
    (hmiss : cacheGet cache (pyStrip s) = none ∨ cacheGet cache (pyStrip s) = some "") :
    translate_text s tf cache args = doCall s (pyStrip s) tf cache := by
  unfold translate_text
  rcases hmiss with hm | hm <;> simp [hss, hsk, hm]

/-- On a truthy cache hit translate_text splices the cached translation and
does not touch the cache or the translation function. -/
theorem translate_text_hit (s : String) (tf : String → Except String String)
    (cache : Cache) (args : Args) (cached : String)
    (hss : pyStrip s ≠ "") (hsk : skipMatch args (pyStrip s) = false)
    (hhit : cacheGet cache (pyStrip s) = some cached) (hne : cached ≠ "") :
    translate_text s tf cache args = ⟨pyReplace s (pyStrip s) cached, cache, 0⟩ := by
  unfold translate_text
  simp [hss, hsk, hhit, hne]

/-- Claim C1: when the translation function raises, translate_text returns
the original candidate unchanged (and the exception does not escape: the
result is an ordinary value, with the cache untouched); and in a text file
of five candidate lines where the function raises for exactly one, all five
lines are written, the failing one unchanged and the other four
translated. -/
theorem C1_fail_safe (s : String) (tf : String → Except String String)
    (cache : Cache) (args : Args) (e : String)
    (hss : pyStrip s ≠ "") (hsk : skipMatch args (pyStrip s) = false)
    (hmiss : cacheGet cache (pyStrip s) = none ∨ cacheGet cache (pyStrip s) = some "")
    (herr : tf (pyStrip s) = Except.error e) :
    translate_text s tf cache args = ⟨s, cache, 1⟩
  ∧ (translate_txt_lines
       (fun t => if t = "three" then Except.error "boom" else Except.ok ("X" ++ t))
       ⟨none⟩ ["one\n", "two\n", "three\n", "four\n", "five\n"] []).1
      = ["Xone\n", "Xtwo\n", "three\n", "Xfour\n", "Xfive\n"] := by
  constructor
  · rw [translate_text_callBranch s tf cache args hss hsk hmiss]
    unfold doCall
    rw [herr]
  · decide

/-- Witness for C1 at a concrete input: the candidate has a non-empty core,
no skip pattern, an empty cache, and a failing translation function, and the
result is the candidate unchanged with the cache untouched. -/
theorem C1_fail_safe_witness :
    (pyStrip "  broken  " ≠ "")
  ∧ (skipMatch ⟨none⟩ (pyStrip "  broken  ") = false)
  ∧ translate_text "  broken  " (fun _ => Except.error "net down") [] ⟨none⟩
      = ⟨"  broken  ", [], 1⟩ :=
  ⟨by decide, by decide,
   (C1_fail_safe "  broken  " (fun _ => Except.error "net down") [] ⟨none⟩
      "net down" (by decide) (by decide) (Or.inl (by decide)) rfl).1⟩

/-- Claim C2: for a candidate with a non-empty trimmed core that is not
skipped, the spliced result is the original leading whitespace, then the
translation taken from the cache or from the client, then the original
trailing whitespace; in particular the candidate with two spaces around
Hello World translated to Bonjour yields Bonjour inside the same spaces. -/
theorem C2_whitespace_splice (s : String) (tf : String → Except String String)
    (cache : Cache) (args : Args)
    (h1 : pyStrip s ≠ "") (h2 : skipMatch args (pyStrip s) = false) :
    (∀ cached, cacheGet cache (pyStrip s) = some cached → cached ≠ "" →
       (translate_text s tf cache args).result = leadWS s ++ cached ++ trailWS s)
  ∧ (∀ t, tf (pyStrip s) = Except.ok t →
       (cacheGet cache (pyStrip s) = none ∨ cacheGet cache (pyStrip s) = some "") →
       (translate_text s tf cache args).result = leadWS s ++ t ++ trailWS s)
  ∧ (translate_text "  Hello World  " (fun _ => Except.ok "Bonjour") [] ⟨none⟩).result
      = "  Bonjour  " := by
  refine ⟨?_, ?_, by decide⟩
  · intro cached hhit hne
    rw [translate_text_hit s tf cache args cached h1 h2 hhit hne]
    exact replace_strip_splice s cached h1
  · intro t hok hmiss
    rw [translate_text_callBranch s tf cache args h1 h2 hmiss]
    unfold doCall
    rw [hok]
    exact replace_strip_splice s t h1

/-- Witness for C2 at a concrete input: a fresh candidate with surrounding
whitespace, an empty cache and a client returning Bonjour splices to the
translation inside the original whitespace. -/
theorem C2_whitespace_splice_witness :
    (pyStrip "  Hello World  " ≠ "")
  ∧ (translate_text "  Hello World  " (fun _ => Except.ok "Bonjour") [] ⟨none⟩).result
      = leadWS "  Hello World  " ++ "Bonjour" ++ trailWS "  Hello World  " :=
  ⟨by decide,
   (C2_whitespace_splice "  Hello World  " (fun _ => Except.ok "Bonjour") [] ⟨none⟩
      (by decide) (by decide)).2.1 "Bonjour" rfl (Or.inl (by decide))⟩

/-- Claim C3: a candidate that strips to empty, or whose stripped form
matches the configured exclusion pattern, is returned byte for byte
unchanged, the cache is untouched, and the translation function is invoked
zero times. -/
theorem C3_skip_unchanged (s : String) (tf : String → Except String String)
    (cache : Cache) (args : Args)
    (h : pyStrip s = "" ∨ skipMatch args (pyStrip s) = true) :
    translate_text s tf cache args = ⟨s, cache, 0⟩ := by
  unfold translate_text
  rcases h with h | h
  · simp [h]
  · by_cases h0 : pyStrip s = ""
    · simp [h0]
    · simp [h0, h]

/-- Witness for C3 at a concrete input: a candidate matching the configured
exclusion pattern is returned unchanged with zero client calls. -/
theorem C3_skip_unchanged_witness :
    (skipMatch ⟨some (fun t => t == "1234")⟩ (pyStrip " 1234 ") = true)
  ∧ translate_text " 1234 " (fun _ => Except.ok "should never be used") []
      ⟨some (fun t => t == "1234")⟩ = ⟨" 1234 ", [], 0⟩ :=
  ⟨by decide,
   C3_skip_unchanged " 1234 " (fun _ => Except.ok "should never be used") []
     ⟨some (fun t => t == "1234")⟩ (Or.inr (by decide))⟩

/-- Claim C8: putting a value under a key and reading that key back returns
exactly the stored value, and a later put under a different key does not
evict it. -/
theorem C8_cache_roundtrip (c : Cache) (k v : String) (hk : k ≠ "") (hv : v ≠ "") :
    cacheGet (cachePut c k v) k = some v
  ∧ (∀ k₂ v₂, k₂ ≠ k → cacheGet (cachePut (cachePut c k v) k₂ v₂) k = some v) := by
  constructor
  · simp [cacheGet, cachePut]
  · intro k₂ v₂ hne
    have hbeq : (k == k₂) = false := by
      cases hq : k == k₂
      · rfl
      · exact absurd (eq_of_beq hq).symm hne
    simp [cacheGet, cachePut, List.lookup_cons, hbeq]

/-- Witness for C8 at a concrete input: a round trip through the cache for a
non-empty key and value, surviving an unrelated later put. -/
theorem C8_cache_roundtrip_witness :
    (("hello" : String) ≠ "") ∧ (("bonjour" : String) ≠ "")
  ∧ cacheGet (cachePut [] "hello" "bonjour") "hello" = some "bonjour"
  ∧ cacheGet (cachePut (cachePut [] "hello" "bonjour") "world" "monde") "hello"
      = some "bonjour" := by
  have h := C8_cache_roundtrip [] "hello" "bonjour" (by decide) (by decide)
  exact ⟨by decide, by decide, h.1, h.2 "world" "monde" (by decide)⟩

/-- Claim C9: the cache key is the trimmed candidate and mentions no
language code: a translation stored during a call made with one language
pair is found and returned verbatim for the same candidate under a
different language pair, a different provider closure and a different API
key, with zero further client calls. -/
theorem C9_cache_key_language_free (s : String) (cache : Cache) (args args2 : Args)
    (client client2 : String → String → String → String → Except String String)
    (src tgt key src2 tgt2 key2 t : String)
    (hss : pyStrip s ≠ "") (hsk : skipMatch args (pyStrip s) = false)
    (hsk2 : skipMatch args2 (pyStrip s) = false)
    (hmiss : cacheGet cache (pyStrip s) = none)
    (hok : client (pyStrip s) src tgt key = Except.ok t) (ht : t ≠ "") :
    (translate_text s (translate_func_factory client src tgt key) cache args).cache
      = cachePut cache (pyStrip s) t
  ∧ (translate_text s (translate_func_factory client2 src2 tgt2 key2)
       (translate_text s (translate_func_factory client src tgt key) cache args).cache
       args2).result
      = (translate_text s (translate_func_factory client src tgt key) cache args).result
  ∧ (translate_text s (translate_func_factory client2 src2 tgt2 key2)
       (translate_text s (translate_func_factory client src tgt key) cache args).cache
       args2).calls = 0 := by
  have h1 : translate_text s (translate_func_factory client src tgt key) cache args
      = ⟨pyReplace s (pyStrip s) t, cachePut cache (pyStrip s) t, 1⟩ := by
    rw [translate_text_callBranch s _ cache args hss hsk (Or.inl hmiss)]
    unfold doCall translate_func_factory
    rw [hok]
  have hhit : cacheGet (cachePut cache (pyStrip s) t) (pyStrip s) = some t := by
    simp [cacheGet, cachePut]
  have h2 : translate_text s (translate_func_factory client2 src2 tgt2 key2)
      (cachePut cache (pyStrip s) t) args2
      = ⟨pyReplace s (pyStrip s) t, cachePut cache (pyStrip s) t, 0⟩ :=
    translate_text_hit s _ _ args2 t hss hsk2 hhit ht
  rw [h1]
  exact ⟨rfl, by rw [h2], by rw [h2]⟩

/-- Witness for C9 at a concrete input: a translation cached during an
English-to-Japanese call is returned verbatim for the same candidate under
a French-to-German configuration with a provider that would answer
differently. -/
theorem C9_cache_key_language_free_witness :
    (pyStrip "hi" ≠ "")
  ∧ (translate_text "hi"
       (translate_func_factory (fun _ _ _ _ => Except.ok "KONNICHIWA") "en" "ja" "k1")
       [] ⟨none⟩).cache = cachePut [] (pyStrip "hi") "KONNICHIWA"
  ∧ (translate_text "hi"
       (translate_func_factory (fun _ _ _ _ => Except.ok "OTHER") "fr" "de" "k2")
       (translate_text "hi"
         (translate_func_factory (fun _ _ _ _ => Except.ok "KONNICHIWA") "en" "ja" "k1")
         [] ⟨none⟩).cache ⟨none⟩).result
      = (translate_text "hi"
          (translate_func_factory (fun _ _ _ _ => Except.ok "KONNICHIWA") "en" "ja" "k1")
          [] ⟨none⟩).result := by
  have h := C9_cache_key_language_free "hi" [] ⟨none⟩ ⟨none⟩
    (fun _ _ _ _ => Except.ok "KONNICHIWA") (fun _ _ _ _ => Except.ok "OTHER")
    "en" "ja" "k1" "fr" "de" "k2" "KONNICHIWA"
    (by decide) (by decide) (by decide) rfl rfl (by decide)
  exact ⟨by decide, h.1, h.2.1⟩

/-- Claim C10: a cached empty string is treated as a miss because the hit
test is a truthiness test; the translation function is invoked again
(exactly once), and on success the stored entry is overwritten with the new
result. -/
theorem C10_empty_cached_is_miss (s : String) (tf : String → Except String String)
    (cache : Cache) (args : Args)
    (hss : pyStrip s ≠ "") (hsk : skipMatch args (pyStrip s) = false)
    (hhit : cacheGet cache (pyStrip s) = some "") :
    (translate_text s tf cache args).calls = 1
  ∧ (∀ t, tf (pyStrip s) = Except.ok t →
       translate_text s tf cache args
         = ⟨pyReplace s (pyStrip s) t, cachePut cache (pyStrip s) t, 1⟩) := by
  have hc := translate_text_callBranch s tf cache args hss hsk (Or.inr hhit)
  constructor
  · rw [hc]
    unfold doCall
    cases htf : tf (pyStrip s) <;> rfl
  · intro t hok
    rw [hc]
    unfold doCall
    rw [hok]

/-- Witness for C10 at a concrete input: with an empty string cached under
the key, the client is called once and the entry is overwritten. -/
theorem C10_empty_cached_is_miss_witness :
    (cacheGet [("hi", "")] (pyStrip "hi") = some "")
  ∧ (translate_text "hi" (fun _ => Except.ok "bonjour") [("hi", "")] ⟨none⟩).calls = 1
  ∧ translate_text "hi" (fun _ => Except.ok "bonjour") [("hi", "")] ⟨none⟩
      = ⟨pyReplace "hi" (pyStrip "hi") "bonjour",
         cachePut [("hi", "")] (pyStrip "hi") "bonjour", 1⟩ := by
  have h := C10_empty_cached_is_miss "hi" (fun _ => Except.ok "bonjour")
    [("hi", "")] ⟨none⟩ (by decide) (by decide) (by decide)
  exact ⟨by decide, h.1, h.2 "bonjour" rfl⟩

mutual

/-- The walk changes nothing outside string leaves: erasing string contents
on both sides gives equal trees, whatever the translation function, the
options and the cache state. -/
theorem walk_mask (tf : String → Except String String) (args : Args) :
    (d : JVal) → (c : Cache) → mask (walk tf args d c).1 = mask d
  | JVal.str s, c => by simp [walk, mask]
  | JVal.num n, c => by simp [walk]
  | JVal.bool b, c => by simp [walk]
  | JVal.null, c => by simp [walk]
  | JVal.arr xs, c => by
    simp only [walk, mask]
    rw [walkList_mask tf args xs c]
  | JVal.obj kvs, c => by
    simp only [walk, mask]
    rw [walkObj_mask tf args kvs c]

/-- Mask preservation across a walked sequence. -/
theorem walkList_mask (tf : String → Except String String) (args : Args) :
    (xs : List JVal) → (c : Cache) →
      maskList (walkList tf args xs c).1 = maskList xs
  | [], _ => rfl
  | x :: xs, c => by
    simp only [walkList, maskList]
    rw [walk_mask tf args x c, walkList_mask tf args xs (walk tf args x c).2]

/-- Mask preservation across walked mapping entries: keys untouched. -/
theorem walkObj_mask (tf : String → Except String String) (args : Args) :
    (kvs : List (String × JVal)) → (c : Cache) →
      maskObj (walkObj tf args kvs c).1 = maskObj kvs
  | [], _ => rfl
  | kv :: kvs, c => by
    simp only [walkObj, maskObj]
    rw [walk_mask tf args kv.2 c, walkObj_mask tf args kvs (walk tf args kv.2 c).2]

end

mutual

/-- Erasing string contents does not move or change any mapping key. -/
theorem deepKeys_mask : (d : JVal) → deepKeys (mask d) = deepKeys d
  | JVal.str _ => rfl
  | JVal.num _ => rfl
  | JVal.bool _ => rfl
  | JVal.null => rfl
  | JVal.arr xs => by
    simp only [mask, deepKeys]
    rw [deepKeysList_mask xs]
  | JVal.obj kvs => by
    simp only [mask, deepKeys]
    rw [deepKeysObj_mask kvs]

/-- Key preservation under mask, sequence form. -/
theorem deepKeysList_mask : (xs : List JVal) → deepKeysList (maskList xs) = deepKeysList xs
  | [] => rfl
  | x :: xs => by
    simp only [maskList, deepKeysList]
    rw [deepKeys_mask x, deepKeysList_mask xs]

/-- Key preservation under mask, mapping form. -/
theorem deepKeysObj_mask : (kvs : List (String × JVal)) → deepKeysObj (maskObj kvs) = deepKeysObj kvs
  | [] => rfl
  | kv :: kvs => by
    simp only [maskObj, deepKeysObj]
    rw [deepKeys_mask kv.2, deepKeysObj_mask kvs]

end

/-- With the identity translation client and a cache whose entries all map a
key to itself, translate_text returns its candidate unchanged and the cache
keeps that shape. -/
theorem translate_text_id (s : String) (args : Args) (c : Cache) (h : IdCache c) :
    (translate_text s (fun t => Except.ok t) c args).result = s
    ∧ IdCache (translate_text s (fun t => Except.ok t) c args).cache := by
  have hid2 : IdCache (cachePut c (pyStrip s) (pyStrip s)) := by
    intro kv hkv
    rcases List.mem_cons.mp hkv with hkv | hkv
    · rw [hkv]
    · exact h kv hkv
  unfold translate_text
  by_cases h0 : pyStrip s = ""
  · simp only [h0, if_pos rfl]
    exact ⟨rfl, h⟩
  · by_cases h1 : skipMatch args (pyStrip s) = true
    · simp only [if_neg h0, h1, if_pos rfl]
      exact ⟨rfl, h⟩
    · rw [Bool.not_eq_true] at h1
      cases hget : cacheGet c (pyStrip s) with
      | none =>
        simp only [if_neg h0, h1, Bool.false_eq_true, if_neg (Bool.false_ne_true), hget,
          doCall]
        exact ⟨pyReplace_self s (pyStrip s), hid2⟩
      | some cached =>
        by_cases h2 : cached = ""
        · subst h2
          simp only [if_neg h0, h1, Bool.false_eq_true, if_neg (Bool.false_ne_true), hget,
            if_pos rfl, doCall]
          exact ⟨pyReplace_self s (pyStrip s), hid2⟩
        · have hmem : (pyStrip s, cached) ∈ c := by
            unfold cacheGet at hget
            obtain ⟨l₁, l₂, hsplit, -⟩ := List.lookup_eq_some_iff.mp hget
            rw [hsplit]
            simp
          have hcc : cached = pyStrip s := h _ hmem
          simp only [if_neg h0, h1, Bool.false_eq_true, if_neg (Bool.false_ne_true), hget,
            if_neg h2]
          subst hcc
          exact ⟨pyReplace_self s _, h⟩

mutual

/-- With the identity translation client the walk is the identity on the
document, and the cache keeps its identity shape. -/
theorem walk_id (args : Args) :
    (d : JVal) → (c : Cache) → IdCache c →
      (walk (fun t => Except.ok t) args d c).1 = d
      ∧ IdCache (walk (fun t => Except.ok t) args d c).2
  | JVal.str s, c, h => by
    have ht := translate_text_id s args c h
    simp only [walk]
    exact ⟨by rw [ht.1], ht.2⟩
  | JVal.num _, _, h => ⟨rfl, h⟩
  | JVal.bool _, _, h => ⟨rfl, h⟩
  | JVal.null, _, h => ⟨rfl, h⟩
  | JVal.arr xs, c, h => by
    have hl := walkList_id args xs c h
    simp only [walk]
    exact ⟨by rw [hl.1], hl.2⟩
  | JVal.obj kvs, c, h => by
    have ho := walkObj_id args kvs c h
    simp only [walk]
    exact ⟨by rw [ho.1], ho.2⟩

/-- Identity walk over a sequence. -/
theorem walkList_id (args : Args) :
    (xs : List JVal) → (c : Cache) → IdCache c →
      (walkList (fun t => Except.ok t) args xs c).1 = xs
      ∧ IdCache (walkList (fun t => Except.ok t) args xs c).2
  | [], _, h => ⟨rfl, h⟩
  | x :: xs, c, h => by
    have h1 := walk_id args x c h
    have h2 := walkList_id args xs (walk (fun t => Except.ok t) args x c).2 h1.2
    simp only [walkList]
    exact ⟨by rw [h1.1, h2.1], h2.2⟩

/-- Identity walk over mapping entries. -/
theorem walkObj_id (args : Args) :
    (kvs : List (String × JVal)) → (c : Cache) → IdCache c →
      (walkObj (fun t => Except.ok t) args kvs c).1 = kvs
      ∧ IdCache (walkObj (fun t => Except.ok t) args kvs c).2
  | [], _, h => ⟨rfl, h⟩
  | kv :: kvs, c, h => by
    have h1 := walk_id args kv.2 c h
    have h2 := walkObj_id args kvs (walk (fun t => Except.ok t) args kv.2 c).2 h1.2
    simp only [walkObj]
    exact ⟨by rw [h1.1, h2.1], h2.2⟩

end

/-- Characters at or above the space code point that are neither the quote
nor the backslash pass through the JSON string encoder unchanged. -/
theorem jsonEscapeChar_plain (ch : Char) (h1 : 32 ≤ ch.toNat)
    (h2 : ch ≠ '\"') (h3 : ch ≠ '\\') : jsonEscapeChar ch = [ch] := by
  have hb : ch ≠ '\x08' := by intro hq; subst hq; exact absurd h1 (by decide)
  have hf : ch ≠ '\x0c' := by intro hq; subst hq; exact absurd h1 (by decide)
  have hn : ch ≠ '\n' := by intro hq; subst hq; exact absurd h1 (by decide)
  have hr : ch ≠ '\r' := by intro hq; subst hq; exact absurd h1 (by decide)
  have htb : ch ≠ '\t' := by intro hq; subst hq; exact absurd h1 (by decide)
  unfold jsonEscapeChar
  rw [if_neg h3, if_neg h2, if_neg hb, if_neg hf, if_neg hn, if_neg hr, if_neg htb,
    if_neg (by omega)]

/-- Claim C4 as frozen is refuted: the line made of two spaces, a hash, and
the pair a equals b does not start with a hash and contains an equals sign,
so by the claim its value part would be translated; the code instead tests
the comment condition on the stripped line and emits the line verbatim.
With a client translating the value b to Z the claimed output line differs
from the actual output line. -/
theorem C4_counterexample :
    ("  #a=b\n".data.head? = some ' ' ∧ "  #a=b\n".data.head? ≠ some '#')
  ∧ ('=' ∈ "  #a=b\n".data)
  ∧ (translate_properties_lines (fun _ => Except.ok "Z") ⟨none⟩ ["  #a=b\n"] []).1
      = ["  #a=b\n"]
  ∧ (String.mk ("  #a=b\n".data.takeWhile (· != '=')) ++ "="
      ++ (translate_text
            ⟨rstripNL (("  #a=b\n".data.dropWhile (· != '=')).tail)⟩
            (fun _ => Except.ok "Z") [] ⟨none⟩).result ++ "\n")
      = "  #a=Z\n"
  ∧ (("  #a=b\n" : String) ≠ "  #a=Z\n") :=
  ⟨⟨rfl, by decide⟩, by decide, rfl, by decide, by decide⟩

/-- Claim C4 amended: a properties line is emitted verbatim if its stripped
form starts with a hash (the code tests the comment condition after
stripping) or if it contains no equals sign; otherwise exactly the substring
after the first equals sign, with trailing newlines removed, is translated,
the key and the separator are preserved exactly, and a newline ends the
output line; the three concrete examples of the claim behave as stated. -/
theorem C4_amended_properties (tf : String → Except String String) (args : Args)
    (line : String) (rest : List String) (c : Cache) :
    (pyLineIsComment line = true ∨ '=' ∉ line.data →
       (translate_properties_lines tf args (line :: rest) c).1
         = line :: (translate_properties_lines tf args rest c).1)
  ∧ (pyLineIsComment line = false → '=' ∈ line.data →
       (translate_properties_lines tf args (line :: rest) c).1
         = (String.mk (line.data.takeWhile (· != '=')) ++ "="
             ++ (translate_text ⟨rstripNL ((line.data.dropWhile (· != '=')).tail)⟩
                   tf c args).result ++ "\n")
           :: (translate_properties_lines tf args rest
                 (translate_text ⟨rstripNL ((line.data.dropWhile (· != '=')).tail)⟩
                   tf c args).cache).1)
  ∧ (translate_properties_lines
       (fun t => if t = "Hello" then Except.ok "Hola" else Except.error "no")
       ⟨none⟩ ["greeting=Hello"] []).1 = ["greeting=Hola\n"]
  ∧ (translate_properties_lines
       (fun t => if t = "Hello" then Except.ok "Hola" else Except.error "no")
       ⟨none⟩ ["# note"] []).1 = ["# note"]
  ∧ (translate_properties_lines
       (fun t => if t = "Hello" then Except.ok "Hola" else Except.error "no")
       ⟨none⟩ ["no separator here"] []).1 = ["no separator here"] := by
  refine ⟨?_, ?_, by decide, by decide, by decide⟩
  · intro h
    have hcond : (pyLineIsComment line || !(line.data.contains '=')) = true := by
      rcases h with h | h
      · rw [h, Bool.true_or]
      · have hcm : line.data.contains '=' = false := by
          cases hq : line.data.contains '='
          · rfl
          · exact absurd (List.elem_iff.mp hq) h
        rw [hcm]
        simp
    simp only [translate_properties_lines, hcond]
    simp
  · intro h1 h2
    have hcond : (pyLineIsComment line || !(line.data.contains '=')) = false := by
      rw [h1]
      have hcm : line.data.contains '=' = true := List.elem_iff.mpr h2
      rw [hcm]
      rfl
    simp only [translate_properties_lines, hcond]
    simp

/-- Witness for C4 at concrete inputs: the comment line from the claim is
emitted verbatim. -/
theorem C4_amended_properties_witness :
    (pyLineIsComment "# note" = true)
  ∧ (translate_properties_lines (fun _ => Except.ok "X") ⟨none⟩ ["# note"] []).1
      = "# note" :: (translate_properties_lines (fun _ => Except.ok "X") ⟨none⟩ [] []).1 :=
  ⟨by decide,
   (C4_amended_properties (fun _ => Except.ok "X") ⟨none⟩ "# note" [] []).1
     (Or.inl (by decide))⟩

/-- Claim C5 as frozen is refuted on the YAML side: with the identity
translation client and the two-entry mapping with keys b then a, the walk
returns the document unchanged, but the serialized output of yaml safe_dump
orders the keys a then b, so the original mapping key order is not
preserved and the output is not deep-equal to the input including key
ordering. -/
theorem C5_counterexample :
    (walk (fun t => Except.ok t) ⟨none⟩
        (JVal.obj [("b", JVal.num 1), ("a", JVal.num 2)]) []).1
      = JVal.obj [("b", JVal.num 1), ("a", JVal.num 2)]
  ∧ objKeys (JVal.obj [("b", JVal.num 1), ("a", JVal.num 2)]) = ["b", "a"]
  ∧ objKeys (yamlDumpTree
        ((walk (fun t => Except.ok t) ⟨none⟩
            (JVal.obj [("b", JVal.num 1), ("a", JVal.num 2)]) []).1))
      = ["a", "b"]
  ∧ (["a", "b"] : List String) ≠ ["b", "a"] := by
  refine ⟨rfl, rfl, ?_, by decide⟩
  have h1 : (walk (fun t => Except.ok t) ⟨none⟩
      (JVal.obj [("b", JVal.num 1), ("a", JVal.num 2)]) []).1
      = JVal.obj [("b", JVal.num 1), ("a", JVal.num 2)] := rfl
  rw [h1]
  simp [yamlDumpTree, yamlDumpObj, objKeys, sortByKey, insertByKey]
  decide

/-- Claim C5 amended: the JSON adapter preserves the original mapping key
order (json.dump without sort_keys emits entries in dict order, and with an
identity translation client the walked tree equals the input, key order
included); the YAML adapter preserves the tree only up to safe_dump
reordering every mapping into sorted key order; and non-ASCII characters
are emitted literally, not escaped (ensure_ascii is disabled). -/
theorem C5_amended_serialization (args : Args) (d : JVal) (c : Cache)
    (h : IdCache c) :
    (walk (fun t => Except.ok t) args d c).1 = d
  ∧ yamlDumpTree (walk (fun t => Except.ok t) args d c).1 = yamlDumpTree d
  ∧ (∀ ch : Char, 128 ≤ ch.toNat → jsonEscapeChar ch = [ch]) := by
  have h1 := (walk_id args d c h).1
  refine ⟨h1, by rw [h1], ?_⟩
  intro ch hch
  apply jsonEscapeChar_plain ch (by omega)
  · intro hq
    subst hq
    exact absurd hch (by decide)
  · intro hq
    subst hq
    exact absurd hch (by decide)

/-- Witness for C5 amended at a concrete input: the empty cache has the
identity shape, the identity walk returns the concrete document unchanged,
and a concrete non-ASCII character passes the JSON encoder literally. -/
theorem C5_amended_serialization_witness :
    IdCache []
  ∧ (walk (fun t => Except.ok t) ⟨none⟩
        (JVal.obj [("b", JVal.str "héllo"), ("a", JVal.num 2)]) []).1
      = JVal.obj [("b", JVal.str "héllo"), ("a", JVal.num 2)]
  ∧ jsonEscapeChar 'é' = ['é'] := by
  have hid : IdCache ([] : Cache) := by
    intro kv hkv
    cases hkv
  have h := C5_amended_serialization ⟨none⟩
    (JVal.obj [("b", JVal.str "héllo"), ("a", JVal.num 2)]) [] hid
  exact ⟨hid, h.1, h.2.2 'é' (by decide)⟩

/-- Claim C6: the recursive walk translates only string leaves: masking
string contents makes input and output agree (so structure, mapping keys
and non-string scalars are untouched and in place), all mapping keys are
preserved in order, a string leaf becomes the translate_text of its
content, and number, boolean and null leaves are returned identical with
the cache untouched. -/
theorem C6_walk_frame (tf : String → Except String String) (args : Args) :
    (∀ d c, mask (walk tf args d c).1 = mask d)
  ∧ (∀ d c, deepKeys (walk tf args d c).1 = deepKeys d)
  ∧ (∀ s c, walk tf args (JVal.str s) c
       = (JVal.str (translate_text s tf c args).result,
          (translate_text s tf c args).cache))
  ∧ (∀ n c, walk tf args (JVal.num n) c = (JVal.num n, c))
  ∧ (∀ b c, walk tf args (JVal.bool b) c = (JVal.bool b, c))
  ∧ (∀ c, walk tf args JVal.null c = (JVal.null, c)) := by
  refine ⟨walk_mask tf args, ?_, fun s c => rfl, fun n c => rfl, fun b c => rfl,
    fun c => rfl⟩
  intro d c
  calc deepKeys (walk tf args d c).1
      = deepKeys (mask (walk tf args d c).1) := (deepKeys_mask _).symm
    _ = deepKeys (mask d) := by rw [walk_mask]
    _ = deepKeys d := deepKeys_mask d

/-- Two equal lists have equal elements at equal positions. -/
theorem get_eq_of_eq {α : Type} {l l2 : List α} (h : l = l2) (i : Nat)
    (hi : i < l.length) (hi2 : i < l2.length) :
    l.get ⟨i, hi⟩ = l2.get ⟨i, hi2⟩ := by
  subst h
  rfl

/-- Claim C7: a catalog entry is re-translated only when its id is non-empty
and its current translation strips to empty; an entry with a populated
translation is untouched whatever the client would return; the changed flag
(which alone triggers the rewrite of the file) is set exactly when such a
candidate entry exists; and without it the entry list is returned
identical. -/
theorem C7_po_policy (tf : String → Except String String) (args : Args) :
    ∀ (entries : List PoEntry) (c : Cache),
      ((translate_po_entries tf args entries c).entries.length = entries.length)
    ∧ ((translate_po_entries tf args entries c).changed = true ↔
         ∃ e ∈ entries, pyStrip e.msgid ≠ "" ∧ pyStrip e.msgstr = "")
    ∧ ((translate_po_entries tf args entries c).changed = false →
         (translate_po_entries tf args entries c).entries = entries)
    ∧ (∀ (i : Nat) (hi : i < entries.length)
         (hj : i < (translate_po_entries tf args entries c).entries.length),
         (pyStrip (entries.get ⟨i, hi⟩).msgid = ""
            ∨ pyStrip (entries.get ⟨i, hi⟩).msgstr ≠ "") →
         (translate_po_entries tf args entries c).entries.get ⟨i, hj⟩
           = entries.get ⟨i, hi⟩) := by
  intro entries
  induction entries with
  | nil =>
    intro c
    refine ⟨rfl, by simp [translate_po_entries], fun _ => rfl, ?_⟩
    intro i hi
    exact absurd hi (by simp)
  | cons e es ih =>
    intro c
    by_cases hid : pyStrip e.msgid = ""
    · have hdef : translate_po_entries tf args (e :: es) c
          = ⟨e :: (translate_po_entries tf args es c).entries,
             (translate_po_entries tf args es c).cache,
             (translate_po_entries tf args es c).changed⟩ := by
        simp only [translate_po_entries]
        rw [if_pos hid]
      have hE : (translate_po_entries tf args (e :: es) c).entries
          = e :: (translate_po_entries tf args es c).entries := by rw [hdef]
      have hC : (translate_po_entries tf args (e :: es) c).changed
          = (translate_po_entries tf args es c).changed := by rw [hdef]
      refine ⟨?_, ?_, ?_, ?_⟩
      · rw [hE]
        simp [(ih c).1]
      · rw [hC, (ih c).2.1]
        constructor
        · rintro ⟨x, hx, hx2⟩
          exact ⟨x, List.mem_cons_of_mem e hx, hx2⟩
        · rintro ⟨x, hx, hx2⟩
          rcases List.mem_cons.mp hx with hx | hx
          · subst hx
            exact absurd hid hx2.1
          · exact ⟨x, hx, hx2⟩
      · intro hch
        rw [hC] at hch
        rw [hE, (ih c).2.2.1 hch]
      · intro i hi hj hskip
        have hj2 : i < (e :: (translate_po_entries tf args es c).entries).length := by
          rw [← hE]
          exact hj
        rw [get_eq_of_eq hE i hj hj2]
        cases i with
        | zero => rfl
        | succ n =>
          have hn : n < es.length := by
            simp only [List.length_cons] at hi
            omega
          have hn2 : n < (translate_po_entries tf args es c).entries.length := by
            simp only [List.length_cons] at hj2
            omega
          show (translate_po_entries tf args es c).entries.get ⟨n, hn2⟩
              = es.get ⟨n, hn⟩
          exact (ih c).2.2.2 n hn hn2 hskip
    · by_cases hstr : pyStrip e.msgstr = ""
      · have hdef : translate_po_entries tf args (e :: es) c
            = ⟨(⟨e.msgid, (translate_text e.msgid tf c args).result⟩ : PoEntry)
                 :: (translate_po_entries tf args es
                      (translate_text e.msgid tf c args).cache).entries,
               (translate_po_entries tf args es
                      (translate_text e.msgid tf c args).cache).cache,
               true⟩ := by
          simp only [translate_po_entries]
          rw [if_neg hid, if_pos hstr]
        have hE : (translate_po_entries tf args (e :: es) c).entries
            = (⟨e.msgid, (translate_text e.msgid tf c args).result⟩ : PoEntry)
                :: (translate_po_entries tf args es
                     (translate_text e.msgid tf c args).cache).entries := by
          rw [hdef]
        have hC : (translate_po_entries tf args (e :: es) c).changed = true := by
          rw [hdef]
        refine ⟨?_, ?_, ?_, ?_⟩
        · rw [hE]
          simp [(ih (translate_text e.msgid tf c args).cache).1]
        · rw [hC]
          simp only [true_iff]
          exact ⟨e, List.mem_cons_self e es, hid, hstr⟩
        · intro hch
          rw [hC] at hch
          cases hch
        · intro i hi hj hskip
          have hj2 : i < ((⟨e.msgid, (translate_text e.msgid tf c args).result⟩ : PoEntry)
              :: (translate_po_entries tf args es
                   (translate_text e.msgid tf c args).cache).entries).length := by
            rw [← hE]
            exact hj
          rw [get_eq_of_eq hE i hj hj2]
          cases i with
          | zero =>
            exfalso
            rcases hskip with hskip | hskip
            · exact hid hskip
            · exact hskip hstr
          | succ n =>
            have hn : n < es.length := by
              simp only [List.length_cons] at hi
              omega
            have hn2 : n < (translate_po_entries tf args es
                (translate_text e.msgid tf c args).cache).entries.length := by
              simp only [List.length_cons] at hj2
              omega
            show (translate_po_entries tf args es
                (translate_text e.msgid tf c args).cache).entries.get ⟨n, hn2⟩
                = es.get ⟨n, hn⟩
            exact (ih (translate_text e.msgid tf c args).cache).2.2.2 n hn hn2 hskip
      · have hdef : translate_po_entries tf args (e :: es) c
            = ⟨e :: (translate_po_entries tf args es c).entries,
               (translate_po_entries tf args es c).cache,
               (translate_po_entries tf args es c).changed⟩ := by
          simp only [translate_po_entries]
          rw [if_neg hid, if_neg hstr]
        have hE : (translate_po_entries tf args (e :: es) c).entries
            = e :: (translate_po_entries tf args es c).entries := by rw [hdef]
        have hC : (translate_po_entries tf args (e :: es) c).changed
            = (translate_po_entries tf args es c).changed := by rw [hdef]
        refine ⟨?_, ?_, ?_, ?_⟩
        · rw [hE]
          simp [(ih c).1]
        · rw [hC, (ih c).2.1]
          constructor
          · rintro ⟨x, hx, hx2⟩
            exact ⟨x, List.mem_cons_of_mem e hx, hx2⟩
          · rintro ⟨x, hx, hx2⟩
            rcases List.mem_cons.mp hx with hx | hx
            · subst hx
              exact absurd hx2.2 hstr
            · exact ⟨x, hx, hx2⟩
        · intro hch
          rw [hC] at hch
          rw [hE, (ih c).2.2.1 hch]
        · intro i hi hj hskip
          have hj2 : i < (e :: (translate_po_entries tf args es c).entries).length := by
            rw [← hE]
            exact hj
          rw [get_eq_of_eq hE i hj hj2]
          cases i with
          | zero => rfl
          | succ n =>
            have hn : n < es.length := by
              simp only [List.length_cons] at hi
              omega
            have hn2 : n < (translate_po_entries tf args es c).entries.length := by
              simp only [List.length_cons] at hj2
              omega
            show (translate_po_entries tf args es c).entries.get ⟨n, hn2⟩
                = es.get ⟨n, hn⟩
            exact (ih c).2.2.2 n hn hn2 hskip

/-- Witness for C7 at a concrete input: an entry with a populated
translation is untouched even though the client would answer differently,
and the changed flag stays false, so the file is not rewritten. -/
theorem C7_po_policy_witness :
    (pyStrip "done" ≠ "")
  ∧ (translate_po_entries (fun _ => Except.ok "DIFFERENT") ⟨none⟩
       [⟨"hello", "done"⟩] []).changed = false
  ∧ (translate_po_entries (fun _ => Except.ok "DIFFERENT") ⟨none⟩
       [⟨"hello", "done"⟩] []).entries = [⟨"hello", "done"⟩] := by
  have h := C7_po_policy (fun _ => Except.ok "DIFFERENT") ⟨none⟩
    [⟨"hello", "done"⟩] []
  have hch : (translate_po_entries (fun _ => Except.ok "DIFFERENT") ⟨none⟩
      [⟨"hello", "done"⟩] []).changed = false := by
    cases hq : (translate_po_entries (fun _ => Except.ok "DIFFERENT") ⟨none⟩
        [⟨"hello", "done"⟩] []).changed
    · rfl
    · obtain ⟨x, hx, hx2⟩ := h.2.1.mp hq
      rcases List.mem_singleton.mp hx with rfl
      exact absurd hx2.2 (by decide)
  exact ⟨by decide, hch, h.2.2.1 hch⟩

end TranslateMods
